import Mathlib

/-!
Verification of the kinematic motion controller of Photo-Sphere-Viewer
(`src/utils/Dynamic.js`: classes `Dynamic` and `MultiDynamic`).

The JavaScript code manipulates IEEE doubles but only ever produces the
special values `+Infinity` / `-Infinity` deliberately (the default bounds and
the rolling-mode target); `NaN` can only appear transiently inside the
braking-distance comparison `Math.abs(target - current) < dstStop` when the
division `currentSpeed² / (speed·speedMult·4)` is `0/0`.  We therefore embed
numbers as exact rationals extended with the two infinities (`XQ`), and fold
the IEEE behaviour of the one possibly-`NaN` comparison into a dedicated
boolean definition (`Dynamic.decelHit`) whose cases are spelled out from the
IEEE rules (`x < NaN` is false, a positive `q` over `+0` is `+∞` and over
`-0` is `-∞`, `0/±0 = NaN`, and the sign of a zero product is the XOR of
its factor signs).
-/

namespace PSV

/-- Rationals extended with `-Infinity` and `+Infinity`, the value space of the
controller's `current`, `target`, `min` and `max` fields. -/
inductive XQ where
  | negInf : XQ
  | fin (q : ℚ) : XQ
  | posInf : XQ
deriving DecidableEq

namespace XQ

/-- JavaScript `a < b` on non-`NaN` numbers. -/
def ltb : XQ → XQ → Bool
  | negInf, negInf => false
  | negInf, _ => true
  | fin _, negInf => false
  | fin a, fin b => a < b
  | fin _, posInf => true
  | posInf, _ => false

/-- JavaScript `a <= b` on non-`NaN` numbers. -/
def leb : XQ → XQ → Bool
  | negInf, _ => true
  | fin _, negInf => false
  | fin a, fin b => a ≤ b
  | fin _, posInf => true
  | posInf, posInf => true
  | posInf, _ => false

/-- JavaScript `Math.min` on non-`NaN` numbers. -/
def minx (a b : XQ) : XQ := if ltb a b then a else b

/-- JavaScript `Math.max` on non-`NaN` numbers. -/
def maxx (a b : XQ) : XQ := if ltb a b then b else a

/-- Adding a finite number to an extended number (`±∞ + q = ±∞`). -/
def addQ : XQ → ℚ → XQ
  | negInf, _ => negInf
  | fin a, b => fin (a + b)
  | posInf, _ => posInf

/-- Subtracting a finite number from an extended number (`±∞ - q = ±∞`). -/
def subQ : XQ → ℚ → XQ
  | negInf, _ => negInf
  | fin a, b => fin (a - b)
  | posInf, _ => posInf

end XQ

/-- Modelled from the spec: the clamping helper `bound(x, min, max)` from
`src/utils/index.js` (the utils barrel is not part of the reviewed sources);
the spec describes every use of it as "clamps value to `[min,max]`", which is
the usual `Math.max(min, Math.min(max, x))` idiom. -/
def bound (x mn mx : XQ) : XQ := XQ.maxx mn (XQ.minx mx x)

/-- The three mode constants `Dynamic.STOP`, `Dynamic.INFINITE`,
`Dynamic.POSITION` (spec names: Stopped, Rolling, Seeking). -/
inductive Mode where
  | STOP : Mode
  | INFINITE : Mode
  | POSITION : Mode
deriving DecidableEq

/-- State of one `Dynamic` instance (spec: AxisController).  The change
callback `fn` is modelled by the flag `hasFn` (whether a callback was passed
to the constructor); the values it is invoked with are returned by
`Dynamic.update` as an explicit list. -/
structure Dynamic where
  hasFn : Bool
  mode : Mode
  speed : ℚ
  speedMult : ℚ
  currentSpeed : ℚ
  target : XQ
  current : XQ
  min : XQ
  max : XQ
deriving DecidableEq

namespace Dynamic

/-- The constructor `new Dynamic(fn, min = -Infinity, max = Infinity)`. -/
def make (hasFn : Bool) (mn mx : XQ) : Dynamic :=
  { hasFn := hasFn, mode := Mode.STOP, speed := 0, speedMult := 1,
    currentSpeed := 0, target := XQ.fin 0, current := XQ.fin 0,
    min := mn, max := mx }

/-- `goto(position, speedMult = 1)`. -/
def goto (d : Dynamic) (position : XQ) (speedMult : ℚ) : Dynamic :=
  { d with
    mode := Mode.POSITION, target := bound position d.min d.max,
    speedMult := speedMult }

/-- `step(val, speedMult = 1)`. -/
def step (d : Dynamic) (val : ℚ) (speedMult : ℚ) : Dynamic :=
  let d1 := if d.mode = Mode.INFINITE then { d with target := d.current } else d
  d1.goto (d1.target.addQ val) speedMult

/-- `roll(invert = false, speedMult = 1)`. -/
def roll (d : Dynamic) (invert : Bool) (speedMult : ℚ) : Dynamic :=
  { d with
    mode := Mode.INFINITE,
    target := if invert then XQ.negInf else XQ.posInf,
    speedMult := speedMult }

/-- `stop()`. -/
def stop (d : Dynamic) : Dynamic := { d with mode := Mode.STOP }

/-- `setCurrent(current)`. -/
def setCurrent (d : Dynamic) (current : XQ) : Dynamic :=
  { d with current := current, target := current, mode := Mode.STOP }

/-- The braking-distance test of `update`:
`Math.abs(this.target - this.current) < this.currentSpeed * this.currentSpeed
/ (this.speed * this.speedMult * 4)` under IEEE semantics.  When target and
current are both finite and the denominator is non-zero this is the exact
rational comparison.  When the denominator is zero its IEEE sign is the XOR
of the factor signs: the product `speed * speedMult * 4` is `-0` when exactly
one of `speed`, `speedMult` is negative (at most one can be, since the
product is zero), and `+0` otherwise.  The quotient is then `NaN` if
`currentSpeed = 0` (any comparison with `NaN` is false), `-∞` if
`currentSpeed ≠ 0` and the denominator is `-0` (finite distance < `-∞` is
false), and `+∞` if `currentSpeed ≠ 0` and the denominator is `+0` (finite
distance < `+∞` is true).  When target or current is infinite the left side
is `+∞` or `NaN` and the comparison is false in every case. -/
def decelHit (d : Dynamic) : Bool :=
  match d.target, d.current with
  | XQ.fin t, XQ.fin c =>
      if d.speed * d.speedMult * 4 = 0 then
        decide (d.currentSpeed ≠ 0 ∧ 0 ≤ d.speed ∧ 0 ≤ d.speedMult)
      else
        decide (|t - c| < d.currentSpeed * d.currentSpeed /
          (d.speed * d.speedMult * 4))
  | _, _ => false

/-- The mode after the first block of `update` (switch to stop mode when in
the deceleration window). -/
def stepMode (d : Dynamic) : Mode :=
  if d.mode = Mode.POSITION ∧ decelHit d then Mode.STOP else d.mode

/-- `const targetSpeed = this.mode === Dynamic.STOP ? 0 : this.speed *
this.speedMult;` (reads the possibly-updated mode). -/
def targetSpeed (d : Dynamic) : ℚ :=
  if d.stepMode = Mode.STOP then 0 else d.speed * d.speedMult

/-- The speed-ramp block of `update`. -/
def newSpeed (d : Dynamic) (elapsed : ℚ) : ℚ :=
  if d.currentSpeed < d.targetSpeed then
    Min.min d.targetSpeed
      (d.currentSpeed + elapsed / 1000 * d.speed * d.speedMult * 2)
  else if d.targetSpeed < d.currentSpeed then
    Max.max d.targetSpeed
      (d.currentSpeed - elapsed / 1000 * d.speed * d.speedMult * 2)
  else d.currentSpeed

/-- The position-integration block of `update` (`let next = null; ...`),
using the freshly ramped speed. -/
def nextPos (d : Dynamic) (elapsed : ℚ) : Option XQ :=
  if XQ.ltb d.target d.current ∧ d.newSpeed elapsed ≠ 0 then
    some (XQ.maxx d.target (d.current.subQ (d.newSpeed elapsed * elapsed / 1000)))
  else if XQ.ltb d.current d.target ∧ d.newSpeed elapsed ≠ 0 then
    some (XQ.minx d.target (d.current.addQ (d.newSpeed elapsed * elapsed / 1000)))
  else none

/-- `update(elapsed)`: returns the new state, the boolean result, and the
list of values the change callback is invoked with during the call. -/
def update (d : Dynamic) (elapsed : ℚ) : Dynamic × Bool × List XQ :=
  match d.nextPos elapsed with
  | none =>
      ({ d with
          mode := d.stepMode, currentSpeed := d.newSpeed elapsed },
        false, [])
  | some n =>
      let n2 := bound n d.min d.max
      if n2 ≠ d.current then
        ({ d with
            mode := d.stepMode, currentSpeed := d.newSpeed elapsed,
            current := n2 },
          true, if d.hasFn then [n2] else [])
      else
        ({ d with
            mode := d.stepMode, currentSpeed := d.newSpeed elapsed },
          false, [])

end Dynamic

/-- Looking up `this.dynamics[name]` in the (insertion-ordered) mapping of a
`MultiDynamic`; `none` is JavaScript `undefined`. -/
def lookupDyn (dyns : List (String × Dynamic)) (name : String) : Option Dynamic :=
  (dyns.find? (fun p => p.1 == name)).map (fun p => p.2)

/-- Writing `this.dynamics[name]` back (object key update, order preserved). -/
def setDyn (dyns : List (String × Dynamic)) (name : String) (d : Dynamic) :
    List (String × Dynamic) :=
  dyns.map (fun p => if p.1 == name then (p.1, d) else p)

/-- State of one `MultiDynamic` instance (spec: CompositeController): the
named axes in insertion order, plus whether a callback was provided. -/
structure MultiDynamic where
  hasFn : Bool
  dynamics : List (String × Dynamic)
deriving DecidableEq

namespace MultiDynamic

/-- The `each(args, (value, name) => this.dynamics[name].op(value))` pattern
shared by `goto`, `step`, `roll` and `setCurrent` of `MultiDynamic`: the
entries of `args` are processed in order; an axis name with no entry in
`dynamics` makes the property access throw a `TypeError`, which aborts the
iteration with the mutations made so far kept (the boolean result records
whether the call threw). -/
def fanout (op : Dynamic → α → Dynamic) :
    List (String × Dynamic) → List (String × α) → List (String × Dynamic) × Bool
  | dyns, [] => (dyns, false)
  | dyns, (name, v) :: rest =>
      match lookupDyn dyns name with
      | some d => fanout op (setDyn dyns name (op d v)) rest
      | none => (dyns, true)

/-- `goto(positions, speedMult = 1)`. -/
def goto (md : MultiDynamic) (positions : List (String × XQ)) (speedMult : ℚ) :
    MultiDynamic × Bool :=
  let r := fanout (fun d p => d.goto p speedMult) md.dynamics positions
  ({ md with dynamics := r.1 }, r.2)

/-- `step(steps, speedMult = 1)`. -/
def step (md : MultiDynamic) (steps : List (String × ℚ)) (speedMult : ℚ) :
    MultiDynamic × Bool :=
  let r := fanout (fun d v => d.step v speedMult) md.dynamics steps
  ({ md with dynamics := r.1 }, r.2)

/-- `roll(rolls, speedMult = 1)`. -/
def roll (md : MultiDynamic) (rolls : List (String × Bool)) (speedMult : ℚ) :
    MultiDynamic × Bool :=
  let r := fanout (fun d i => d.roll i speedMult) md.dynamics rolls
  ({ md with dynamics := r.1 }, r.2)

/-- `setCurrent(currents)`. -/
def setCurrent (md : MultiDynamic) (currents : List (String × XQ)) :
    MultiDynamic × Bool :=
  let r := fanout (fun d c => d.setCurrent c) md.dynamics currents
  ({ md with dynamics := r.1 }, r.2)

/-- `stop()`: applies to every axis. -/
def stop (md : MultiDynamic) : MultiDynamic :=
  { md with dynamics := md.dynamics.map (fun p => (p.1, p.2.stop)) }

/-- The body of `MultiDynamic.update`: the fold over the axes accumulating
the updated axes, `hasUpdates` (via `|=`) and the `values` snapshot. -/
def updateFold (elapsed : ℚ)
    (acc : List (String × Dynamic) × Bool × List (String × XQ))
    (p : String × Dynamic) :
    List (String × Dynamic) × Bool × List (String × XQ) :=
  let u := p.2.update elapsed
  (acc.1 ++ [(p.1, u.1)], (acc.2.1 || u.2.1), acc.2.2 ++ [(p.1, u.1.current)])

/-- `update(elapsed)`: returns the new state, the boolean result, the
`values` snapshot, and whether the callback `fn` is invoked (it is invoked
exactly once, with the snapshot, when it is). -/
def update (md : MultiDynamic) (elapsed : ℚ) :
    MultiDynamic × Bool × List (String × XQ) × Bool :=
  let r := md.dynamics.foldl (updateFold elapsed) ([], false, [])
  ({ md with dynamics := r.1 }, r.2.1, r.2.2, r.2.1 && md.hasFn)

end MultiDynamic

/-- One control-surface call on a `Dynamic`, for reachability statements. -/
inductive Op where
  | goto (position : XQ) (speedMult : ℚ) : Op
  | step (val : ℚ) (speedMult : ℚ) : Op
  | roll (invert : Bool) (speedMult : ℚ) : Op
  | stop : Op
  | setCurrent (current : XQ) : Op
  | update (elapsed : ℚ) : Op

/-- Applying one call to a `Dynamic` (the result of `update` is its state
component). -/
def applyOp (d : Dynamic) : Op → Dynamic
  | Op.goto p m => d.goto p m
  | Op.step v m => d.step v m
  | Op.roll i m => d.roll i m
  | Op.stop => d.stop
  | Op.setCurrent c => d.setCurrent c
  | Op.update e => (d.update e).1

/-- Running a sequence of calls from a state. -/
def runOps (d : Dynamic) : List Op → Dynamic
  | [] => d
  | op :: rest => runOps (applyOp d op) rest

/-- Iterating `update` with a fixed elapsed time, keeping only the state. -/
def iterUpd (e : ℚ) : ℕ → Dynamic → Dynamic
  | 0, d => d
  | n + 1, d => iterUpd e n ((d.update e).1)

/-- The bounds invariant of an axis: ordered bounds, `current` within them,
and `target` within them unless it is an infinite rolling sentinel. -/
def Inv (d : Dynamic) : Prop :=
  XQ.leb d.min d.max = true ∧
  XQ.leb d.min d.current = true ∧ XQ.leb d.current d.max = true ∧
  ((XQ.leb d.min d.target = true ∧ XQ.leb d.target d.max = true) ∨
    d.target = XQ.posInf ∨ d.target = XQ.negInf)

/-- The argument restriction under which the invariant is preserved: only
`setCurrent` is constrained (its value must lie within the bounds, since the
code stores it unclamped). -/
def OkOp (mn mx : XQ) : Op → Prop
  | Op.setCurrent c => XQ.leb mn c = true ∧ XQ.leb c mx = true
  | _ => True

/-- The configuration facts that persist across `update` calls in the
convergence scenario: fixed speed `s`, multiplier 1, finite in-bounds target
`t`, nonnegative speed, finite position. -/
def Sane (s t : ℚ) (d : Dynamic) : Prop :=
  d.speed = s ∧ d.speedMult = 1 ∧ d.target = XQ.fin t ∧
  0 ≤ d.currentSpeed ∧ XQ.leb d.min (XQ.fin t) = true ∧
  XQ.leb (XQ.fin t) d.max = true ∧ ∃ c, d.current = XQ.fin c

/-- A Seeking axis about to stall: bounds `[0, 1000]`, maxSpeed 100,
multiplier 1, target `120` just set by `goto`, driven with 1000 ms updates. -/
def stallD0 : Dynamic :=
  ({ Dynamic.make false (XQ.fin 0) (XQ.fin 1000) with
      speed := 100 }).goto (XQ.fin 120) 1

/-- The same axis after one update: cruising at full speed at position 100. -/
def stallD1 : Dynamic :=
  { hasFn := false, mode := Mode.POSITION, speed := 100, speedMult := 1,
    currentSpeed := 100, target := XQ.fin 120, current := XQ.fin 100,
    min := XQ.fin 0, max := XQ.fin 1000 }

/-- The same axis after two updates: stopped dead at position 100, twenty
units short of its target. -/
def stallD2 : Dynamic := { stallD1 with mode := Mode.STOP, currentSpeed := 0 }

@[simp] theorem Mode.stop_ne_inf : ¬ (Mode.STOP = Mode.INFINITE) := by
  intro h; exact Mode.noConfusion h

@[simp] theorem Mode.stop_ne_pos : ¬ (Mode.STOP = Mode.POSITION) := by
  intro h; exact Mode.noConfusion h

@[simp] theorem Mode.inf_ne_stop : ¬ (Mode.INFINITE = Mode.STOP) := by
  intro h; exact Mode.noConfusion h

@[simp] theorem Mode.inf_ne_pos : ¬ (Mode.INFINITE = Mode.POSITION) := by
  intro h; exact Mode.noConfusion h

@[simp] theorem Mode.pos_ne_stop : ¬ (Mode.POSITION = Mode.STOP) := by
  intro h; exact Mode.noConfusion h

@[simp] theorem Mode.pos_ne_inf : ¬ (Mode.POSITION = Mode.INFINITE) := by
  intro h; exact Mode.noConfusion h


namespace XQ

@[simp] theorem ltb_fin_fin (a b : ℚ) : ltb (fin a) (fin b) = decide (a < b) := rfl

@[simp] theorem ltb_fin_posInf (a : ℚ) : ltb (fin a) posInf = true := rfl

@[simp] theorem ltb_posInf (x : XQ) : ltb posInf x = false := rfl

@[simp] theorem ltb_fin_negInf (a : ℚ) : ltb (fin a) negInf = false := rfl

@[simp] theorem ltb_negInf_fin (a : ℚ) : ltb negInf (fin a) = true := rfl

@[simp] theorem leb_negInf (x : XQ) : leb negInf x = true := rfl

@[simp] theorem leb_fin_fin (a b : ℚ) : leb (fin a) (fin b) = decide (a ≤ b) := rfl

@[simp] theorem leb_fin_posInf (a : ℚ) : leb (fin a) posInf = true := rfl

@[simp] theorem leb_fin_negInf (a : ℚ) : leb (fin a) negInf = false := rfl

@[simp] theorem leb_posInf_fin (a : ℚ) : leb posInf (fin a) = false := rfl

@[simp] theorem addQ_fin (a b : ℚ) : addQ (fin a) b = fin (a + b) := rfl

@[simp] theorem subQ_fin (a b : ℚ) : subQ (fin a) b = fin (a - b) := rfl

theorem leb_refl (x : XQ) : leb x x = true := by
  cases x <;> simp [leb]

theorem leb_trans {x y z : XQ} (h1 : leb x y = true) (h2 : leb y z = true) :
    leb x z = true := by
  cases x <;> cases y <;> cases z <;> simp_all [leb] <;> linarith

theorem ltb_to_leb {a b : XQ} (h : ltb a b = true) : leb a b = true := by
  cases a <;> cases b <;> simp_all [ltb, leb] <;> linarith

theorem not_ltb_to_leb {a b : XQ} (h : ¬ ltb a b = true) : leb b a = true := by
  cases a <;> cases b <;> simp_all [ltb, leb] <;> linarith

/-- `Math.max` is at least its first argument. -/
theorem leb_maxx_left (a b : XQ) : leb a (maxx a b) = true := by
  unfold maxx; split
  · exact ltb_to_leb (by assumption)
  · exact leb_refl a

/-- `Math.max` is at least its second argument. -/
theorem leb_maxx_right (a b : XQ) : leb b (maxx a b) = true := by
  unfold maxx; split
  · exact leb_refl b
  · exact not_ltb_to_leb (by assumption)

theorem maxx_le {a b c : XQ} (h1 : leb a c = true) (h2 : leb b c = true) :
    leb (maxx a b) c = true := by
  unfold maxx; split <;> assumption

theorem minx_le_left (a b : XQ) : leb (minx a b) a = true := by
  unfold minx; split
  · exact leb_refl a
  · exact not_ltb_to_leb (by assumption)

theorem minx_le_right (a b : XQ) : leb (minx a b) b = true := by
  unfold minx; split
  · exact ltb_to_leb (by assumption)
  · exact leb_refl b

theorem le_minx {a b c : XQ} (h1 : leb c a = true) (h2 : leb c b = true) :
    leb c (minx a b) = true := by
  unfold minx; split <;> assumption

end XQ

/-- `bound` lands at or above the lower bound. -/
theorem bound_ge (x mn mx : XQ) : XQ.leb mn (bound x mn mx) = true :=
  XQ.leb_maxx_left mn (XQ.minx mx x)

/-- When the bounds are ordered, `bound` lands at or below the upper bound. -/
theorem bound_le {mn mx : XQ} (x : XQ) (h : XQ.leb mn mx = true) :
    XQ.leb (bound x mn mx) mx = true :=
  XQ.maxx_le h (XQ.minx_le_left mx x)

namespace Dynamic

/-- `update` only writes `mode`, `currentSpeed` and `current`: the remaining
fields are untouched. -/
theorem update_frame (d : Dynamic) (e : ℚ) :
    (d.update e).1.hasFn = d.hasFn ∧ (d.update e).1.speed = d.speed ∧
    (d.update e).1.speedMult = d.speedMult ∧ (d.update e).1.target = d.target ∧
    (d.update e).1.min = d.min ∧ (d.update e).1.max = d.max := by
  unfold update
  cases d.nextPos e <;> simp <;> split <;> simp

/-- The mode after `update` is `stepMode`. -/
theorem update_mode (d : Dynamic) (e : ℚ) : (d.update e).1.mode = d.stepMode := by
  unfold update
  cases d.nextPos e <;> simp <;> split <;> simp

/-- The speed after `update` is `newSpeed`. -/
theorem update_currentSpeed (d : Dynamic) (e : ℚ) :
    (d.update e).1.currentSpeed = d.newSpeed e := by
  unfold update
  cases d.nextPos e <;> simp <;> split <;> simp

/-- The position after `update` is either unchanged or a clamped value. -/
theorem update_current_cases (d : Dynamic) (e : ℚ) :
    (d.update e).1.current = d.current ∨
    ∃ n, d.nextPos e = some n ∧ (d.update e).1.current = bound n d.min d.max := by
  unfold update
  cases h : d.nextPos e with
  | none => left; simp
  | some n =>
      simp only []
      split
      · right; exact ⟨n, rfl, by simp⟩
      · left; simp

end Dynamic

/-- Claim C9 (confirmed): `stop()` sets `mode = Stopped` and changes nothing
else: `current`, `target`, `currentSpeed`, `speedMultiplier`, `min`, `max`
and `maxSpeed` keep their values. -/
theorem C9_stop_frame (d : Dynamic) :
    (d.stop).mode = Mode.STOP ∧ (d.stop).current = d.current ∧
    (d.stop).target = d.target ∧ (d.stop).currentSpeed = d.currentSpeed ∧
    (d.stop).speedMult = d.speedMult ∧ (d.stop).min = d.min ∧
    (d.stop).max = d.max ∧ (d.stop).speed = d.speed ∧
    (d.stop).hasFn = d.hasFn := by
  exact ⟨rfl, rfl, rfl, rfl, rfl, rfl, rfl, rfl, rfl⟩

/-- Claim C10 (confirmed): a freshly constructed controller has
`current = 0`, `target = 0`, `currentSpeed = 0`, `speed = 0` and
`mode = Stopped` regardless of the bounds; in particular when `0 < min` the
initial `current` lies strictly below the declared lower bound. -/
theorem C10_make_initial (hasFn : Bool) (mn mx : XQ) :
    (Dynamic.make hasFn mn mx).current = XQ.fin 0 ∧
    (Dynamic.make hasFn mn mx).target = XQ.fin 0 ∧
    (Dynamic.make hasFn mn mx).currentSpeed = 0 ∧
    (Dynamic.make hasFn mn mx).speed = 0 ∧
    (Dynamic.make hasFn mn mx).mode = Mode.STOP ∧
    (XQ.ltb (XQ.fin 0) mn = true →
      XQ.ltb (Dynamic.make hasFn mn mx).current mn = true) := by
  exact ⟨rfl, rfl, rfl, rfl, rfl, fun h => h⟩

/-- Witness for C10 at concrete bounds `[1, 2]`: the fresh controller starts
at `0`, strictly below `min`. -/
theorem C10_make_initial_witness :
    (Dynamic.make true (XQ.fin 1) (XQ.fin 2)).current = XQ.fin 0 ∧
    XQ.ltb (Dynamic.make true (XQ.fin 1) (XQ.fin 2)).current (XQ.fin 1) = true := by
  refine ⟨(C10_make_initial true (XQ.fin 1) (XQ.fin 2)).1, ?_⟩
  exact (C10_make_initial true (XQ.fin 1) (XQ.fin 2)).2.2.2.2.2 (by norm_num)

/-- Counterexample to claim C3 as stated: with bounds `[0, 1]` and a residual
`currentSpeed` of `3`, `setCurrent(5)` leaves `current = 5` (strictly above
`max`, not the clamped value `1`) and leaves `currentSpeed = 3` (not reset
to 0). -/
theorem C3_counterexample :
    ({ Dynamic.make true (XQ.fin 0) (XQ.fin 1) with
        currentSpeed := 3 }.setCurrent (XQ.fin 5)).current = XQ.fin 5 ∧
    bound (XQ.fin 5) (XQ.fin 0) (XQ.fin 1) = XQ.fin 1 ∧
    XQ.ltb (XQ.fin 1)
      ({ Dynamic.make true (XQ.fin 0) (XQ.fin 1) with
          currentSpeed := 3 }.setCurrent (XQ.fin 5)).current = true ∧
    ({ Dynamic.make true (XQ.fin 0) (XQ.fin 1) with
        currentSpeed := 3 }.setCurrent (XQ.fin 5)).currentSpeed = 3 := by
  refine ⟨rfl, ?_, ?_, rfl⟩ <;>
    norm_num [bound, XQ.minx, XQ.maxx, XQ.ltb, Dynamic.make, Dynamic.setCurrent]

/-- Claim C3 as amended: `setCurrent(v)` stores `v` unclamped into both
`current` and `target`, sets `mode = Stopped`, and leaves every other field
(including `currentSpeed`) unchanged; the change callback is not invoked
(`setCurrent` never reads `fn`). -/
theorem C3_setCurrent (d : Dynamic) (v : XQ) :
    (d.setCurrent v).current = v ∧ (d.setCurrent v).target = v ∧
    (d.setCurrent v).mode = Mode.STOP ∧
    (d.setCurrent v).currentSpeed = d.currentSpeed ∧
    (d.setCurrent v).speed = d.speed ∧
    (d.setCurrent v).speedMult = d.speedMult ∧
    (d.setCurrent v).min = d.min ∧ (d.setCurrent v).max = d.max ∧
    (d.setCurrent v).hasFn = d.hasFn := by
  exact ⟨rfl, rfl, rfl, rfl, rfl, rfl, rfl, rfl, rfl⟩

/-- Claim C6 (confirmed): in Rolling mode, `step(delta, m)` produces exactly
the state `goto(current + delta, m)` would produce: the infinite rolling
target is first collapsed to the present `current`. -/
theorem C6_step_rolling (d : Dynamic) (delta m : ℚ)
    (h : d.mode = Mode.INFINITE) :
    d.step delta m = d.goto (d.current.addQ delta) m := by
  simp [Dynamic.step, Dynamic.goto, h]

/-- Witness for C6: a freshly rolled axis, stepped by `2`. -/
theorem C6_step_rolling_witness :
    ((Dynamic.make true XQ.negInf XQ.posInf).roll false 1).mode
        = Mode.INFINITE ∧
    ((Dynamic.make true XQ.negInf XQ.posInf).roll false 1).step 2 1 =
      ((Dynamic.make true XQ.negInf XQ.posInf).roll false 1).goto
        ((((Dynamic.make true XQ.negInf XQ.posInf).roll false 1).current).addQ 2)
        1 := by
  exact ⟨rfl, C6_step_rolling _ 2 1 rfl⟩

/-- In the degenerate-speed case the braking-distance test follows IEEE
division: it is true exactly when `currentSpeed` is non-zero and the zero
denominator is `+0` (neither `speed` nor `speedMult` negative, giving
`+∞`); it is false when `0/±0` yields `NaN` or when a negative factor makes
the denominator `-0` and the quotient `-∞`. -/
theorem Dynamic.decelHit_degenerate (d : Dynamic) (t c : ℚ)
    (ht : d.target = XQ.fin t) (hc : d.current = XQ.fin c)
    (hsm : d.speed * d.speedMult = 0) :
    d.decelHit
      = decide (d.currentSpeed ≠ 0 ∧ 0 ≤ d.speed ∧ 0 ≤ d.speedMult) := by
  unfold Dynamic.decelHit
  rw [ht, hc]
  simp [hsm]

/-- Counterexample to claim C4 as stated: a fresh axis (speed 0) sent toward
target `5` and updated does not have its mode forced to `Stopped` — the `0/0`
braking-distance comparison is false, so the axis stays in Seeking mode (and
the update is a no-op). -/
theorem C4_counterexample :
    ((((Dynamic.make true XQ.negInf XQ.posInf).goto (XQ.fin 5) 1).update
        16).1).mode = Mode.POSITION ∧
    (((Dynamic.make true XQ.negInf XQ.posInf).goto (XQ.fin 5) 1).update 16) =
      (((Dynamic.make true XQ.negInf XQ.posInf).goto (XQ.fin 5) 1), false,
        []) := by
  constructor <;>
    norm_num [Dynamic.make, Dynamic.goto, Dynamic.update, Dynamic.nextPos,
      Dynamic.newSpeed, Dynamic.targetSpeed, Dynamic.stepMode,
      Dynamic.decelHit, bound, XQ.minx, XQ.maxx, XQ.ltb]

/-- Claim C4 as amended: with `maxSpeed·speedMultiplier = 0` in Seeking mode
and a non-zero (finite) distance to target, `update` raises no error (the
division by zero follows IEEE semantics): when `currentSpeed = 0` the call
is a complete no-op returning `false` (the `0/±0` comparison is `NaN`-false
and the mode stays Seeking); when `currentSpeed ≠ 0` and neither `speed` nor
`speedMult` is negative the zero denominator is `+0`, the comparison is
`x < +∞`, and the mode is forced to `Stopped`; when `currentSpeed ≠ 0` and
`speed` or `speedMult` is negative the zero denominator is `-0`, the
comparison is `x < -∞` (false), and the mode stays Seeking. -/
theorem C4_degenerate_speed (d : Dynamic) (e t c : ℚ)
    (hmode : d.mode = Mode.POSITION) (hsm : d.speed * d.speedMult = 0)
    (ht : d.target = XQ.fin t) (hc : d.current = XQ.fin c) (hne : t ≠ c) :
    (d.currentSpeed = 0 → d.update e = (d, false, [])) ∧
    (d.currentSpeed ≠ 0 → 0 ≤ d.speed → 0 ≤ d.speedMult →
      ((d.update e).1).mode = Mode.STOP) ∧
    (d.currentSpeed ≠ 0 → (d.speed < 0 ∨ d.speedMult < 0) →
      ((d.update e).1).mode = Mode.POSITION) := by
  have hdec := d.decelHit_degenerate t c ht hc hsm
  refine ⟨?_, ?_, ?_⟩
  · intro hv
    have hdec0 : d.decelHit = false := by simp [hdec, hv]
    have hm : d.stepMode = d.mode := by simp [Dynamic.stepMode, hdec0]
    have hts : d.targetSpeed = 0 := by
      rw [Dynamic.targetSpeed]
      split
      · rfl
      · exact hsm
    have hns : d.newSpeed e = d.currentSpeed := by
      rw [Dynamic.newSpeed, hts, hv]
      simp
    have hnp : d.nextPos e = none := by
      rw [Dynamic.nextPos, hns, hv]
      simp
    rw [Dynamic.update, hnp]
    rw [hm, hns]
  · intro hv hs0 hm0
    have hdec1 : d.decelHit = true := by simp [hdec, hv, hs0, hm0]
    rw [Dynamic.update_mode, Dynamic.stepMode, hmode]
    simp [hdec1]
  · intro hv hneg
    have hdec0 : d.decelHit = false := by
      rw [hdec]
      simp only [decide_eq_false_iff_not]
      rintro ⟨_, hs0, hm0⟩
      rcases hneg with h | h
      · exact absurd hs0 (not_le.2 h)
      · exact absurd hm0 (not_le.2 h)
    rw [Dynamic.update_mode, Dynamic.stepMode, hmode]
    simp [hdec0]

/-- Witness for C4 at the counterexample input (zero current speed). -/
theorem C4_degenerate_speed_witness :
    (((Dynamic.make true XQ.negInf XQ.posInf).goto (XQ.fin 5) 1).update 16) =
      (((Dynamic.make true XQ.negInf XQ.posInf).goto (XQ.fin 5) 1), false,
        []) := by
  exact (C4_degenerate_speed
    ((Dynamic.make true XQ.negInf XQ.posInf).goto (XQ.fin 5) 1) 16 5 0
    rfl (by norm_num [Dynamic.make, Dynamic.goto]) rfl rfl
    (by norm_num)).1 rfl

/-- Claim C7 (confirmed): `update` returns `true` exactly when `current`
changed during the call, and the change callback is invoked (once, with the
new `current`) exactly when the call returns `true` and a callback is
present. -/
theorem C7_update_changed_iff (d : Dynamic) (e : ℚ) :
    ((d.update e).2.1 = true ↔ (d.update e).1.current ≠ d.current) ∧
    (d.update e).2.2 =
      (if ((d.update e).2.1 && d.hasFn) = true
        then [(d.update e).1.current] else []) := by
  unfold Dynamic.update
  cases h : d.nextPos e with
  | none => simp
  | some n =>
      by_cases h2 : bound n d.min d.max ≠ d.current
      · simp [h2]
      · simp [h2]

/-- Closed form of the `update` fold of `MultiDynamic`, for any starting
accumulator. -/
theorem MultiDynamic.updateFold_spec (e : ℚ) (l : List (String × Dynamic))
    (acc : List (String × Dynamic) × Bool × List (String × XQ)) :
    l.foldl (MultiDynamic.updateFold e) acc =
      (acc.1 ++ l.map (fun p => (p.1, (p.2.update e).1)),
        (acc.2.1 || l.any (fun p => (p.2.update e).2.1)),
        acc.2.2 ++ l.map (fun p => (p.1, ((p.2.update e).1).current))) := by
  induction l generalizing acc with
  | nil => simp
  | cons hd tl ih =>
      rw [List.foldl_cons, ih]
      simp [MultiDynamic.updateFold, Bool.or_assoc]

/-- Claim C5 (confirmed): `MultiDynamic.update` updates every axis, returns
the OR of the individual changed flags, builds the snapshot of every axis's
(new) current value, and invokes the callback (exactly once, with that full
snapshot) precisely when some axis changed and a callback is present. -/
theorem C5_multi_update (md : MultiDynamic) (e : ℚ) :
    (md.update e).1.dynamics
        = md.dynamics.map (fun p => (p.1, (p.2.update e).1)) ∧
    (md.update e).1.hasFn = md.hasFn ∧
    (md.update e).2.1 = md.dynamics.any (fun p => (p.2.update e).2.1) ∧
    (md.update e).2.2.1
        = md.dynamics.map (fun p => (p.1, ((p.2.update e).1).current)) ∧
    (md.update e).2.2.2 = ((md.update e).2.1 && md.hasFn) := by
  have h := MultiDynamic.updateFold_spec e md.dynamics ([], false, [])
  unfold MultiDynamic.update
  rw [h]
  simp

/-- `setDyn` keeps the set (and order) of axis names. -/
theorem setDyn_fst (dyns : List (String × Dynamic)) (n : String) (d : Dynamic) :
    (setDyn dyns n d).map Prod.fst = dyns.map Prod.fst := by
  induction dyns with
  | nil => rfl
  | cons p rest ih =>
      simp only [setDyn, List.map_cons] at ih ⊢
      split <;> simp_all

/-- A name is looked up successfully exactly when it is one of the axis
names. -/
theorem lookupDyn_eq_none_iff (dyns : List (String × Dynamic)) (nm : String) :
    lookupDyn dyns nm = none ↔ ¬ nm ∈ dyns.map Prod.fst := by
  simp only [lookupDyn, Option.map_eq_none', List.find?_eq_none, beq_iff_eq,
    List.mem_map]
  constructor
  · rintro h ⟨x, hx, rfl⟩
    exact h x hx rfl
  · intro h x hx heq
    exact h ⟨x, hx, heq⟩

/-- `setDyn` with one name does not affect lookups of a different name. -/
theorem lookupDyn_setDyn_ne (dyns : List (String × Dynamic)) (n nm : String)
    (d : Dynamic) (h : nm ≠ n) :
    lookupDyn (setDyn dyns n d) nm = lookupDyn dyns nm := by
  induction dyns with
  | nil => rfl
  | cons p rest ih =>
      by_cases hp : p.1 == n
      · have hpn : p.1 = n := by simpa using hp
        have hpnm : (p.1 == nm) = false := by
          simp [hpn]
          exact fun hh => h hh.symm
        simp [setDyn, lookupDyn, List.find?, hp, hpnm] at ih ⊢
        simpa [lookupDyn] using ih
      · have hp2 : (p.1 == n) = false := by simpa using hp
        by_cases hnm : p.1 == nm
        · simp [setDyn, lookupDyn, List.find?, hp2, hnm]
        · have hnm2 : (p.1 == nm) = false := by simpa using hnm
          simp [setDyn, lookupDyn, List.find?, hp2, hnm2] at ih ⊢
          simpa [lookupDyn] using ih

/-- The fan-out keeps the set (and order) of axis names. -/
theorem fanout_fst (op : Dynamic → α → Dynamic) (dyns : List (String × Dynamic))
    (args : List (String × α)) :
    ((MultiDynamic.fanout op dyns args).1).map Prod.fst = dyns.map Prod.fst := by
  induction args generalizing dyns with
  | nil => rfl
  | cons a rest ih =>
      rw [MultiDynamic.fanout]
      cases h : lookupDyn dyns a.1 with
      | none => rfl
      | some d => rw [ih, setDyn_fst]

/-- Axes whose name is not in the argument mapping are left untouched by the
fan-out. -/
theorem fanout_lookup_not_named (op : Dynamic → α → Dynamic)
    (dyns : List (String × Dynamic)) (args : List (String × α)) (nm : String)
    (h : ¬ nm ∈ args.map Prod.fst) :
    lookupDyn (MultiDynamic.fanout op dyns args).1 nm = lookupDyn dyns nm := by
  induction args generalizing dyns with
  | nil => rfl
  | cons a rest ih =>
      simp only [List.map_cons, List.mem_cons] at h
      push_neg at h
      rw [MultiDynamic.fanout]
      cases hl : lookupDyn dyns a.1 with
      | none => rfl
      | some d =>
          rw [ih _ h.2, lookupDyn_setDyn_ne _ _ _ _ h.1]

/-- The fan-out reports an error exactly when some argument names an unknown
axis. -/
theorem fanout_err (op : Dynamic → α → Dynamic) (dyns : List (String × Dynamic))
    (args : List (String × α)) :
    (MultiDynamic.fanout op dyns args).2 = true ↔
      ∃ a ∈ args, ¬ a.1 ∈ dyns.map Prod.fst := by
  induction args generalizing dyns with
  | nil => simp [MultiDynamic.fanout]
  | cons a rest ih =>
      rw [MultiDynamic.fanout]
      cases hl : lookupDyn dyns a.1 with
      | none =>
          simp only []
          constructor
          · intro _
            exact ⟨a, List.mem_cons_self a rest,
              (lookupDyn_eq_none_iff dyns a.1).1 hl⟩
          · intro _
            trivial
      | some d =>
          rw [ih]
          have hmem : a.1 ∈ dyns.map Prod.fst := by
            by_contra hcon
            rw [← lookupDyn_eq_none_iff] at hcon
            rw [hcon] at hl
            exact Option.noConfusion hl
          constructor
          · rintro ⟨b, hb, hnb⟩
            rw [setDyn_fst] at hnb
            exact ⟨b, List.mem_cons_of_mem a hb, hnb⟩
          · rintro ⟨b, hb, hnb⟩
            rcases List.mem_cons.1 hb with rfl | hb2
            · exact absurd hmem hnb
            · exact ⟨b, hb2, by rw [setDyn_fst]; exact hnb⟩

/-- Claim C8 (confirmed): each fan-out operation of `MultiDynamic` touches
only the axes named in its sparse argument mapping — any axis whose name is
absent is left completely unchanged — and naming an axis that does not exist
makes the call report an error (the JavaScript property access throws)
instead of silently ignoring the name. -/
theorem C8_fanout_ops (md : MultiDynamic) (positions : List (String × XQ))
    (steps : List (String × ℚ)) (rolls : List (String × Bool))
    (currents : List (String × XQ)) (m : ℚ) (nm : String) :
    ((¬ nm ∈ positions.map Prod.fst →
      lookupDyn ((md.goto positions m).1).dynamics nm
        = lookupDyn md.dynamics nm) ∧
     ((md.goto positions m).2 = true ↔
       ∃ a ∈ positions, ¬ a.1 ∈ md.dynamics.map Prod.fst)) ∧
    ((¬ nm ∈ steps.map Prod.fst →
      lookupDyn ((md.step steps m).1).dynamics nm
        = lookupDyn md.dynamics nm) ∧
     ((md.step steps m).2 = true ↔
       ∃ a ∈ steps, ¬ a.1 ∈ md.dynamics.map Prod.fst)) ∧
    ((¬ nm ∈ rolls.map Prod.fst →
      lookupDyn ((md.roll rolls m).1).dynamics nm
        = lookupDyn md.dynamics nm) ∧
     ((md.roll rolls m).2 = true ↔
       ∃ a ∈ rolls, ¬ a.1 ∈ md.dynamics.map Prod.fst)) ∧
    ((¬ nm ∈ currents.map Prod.fst →
      lookupDyn ((md.setCurrent currents).1).dynamics nm
        = lookupDyn md.dynamics nm) ∧
     ((md.setCurrent currents).2 = true ↔
       ∃ a ∈ currents, ¬ a.1 ∈ md.dynamics.map Prod.fst)) := by
  refine ⟨⟨fun h => ?_, ?_⟩, ⟨fun h => ?_, ?_⟩, ⟨fun h => ?_, ?_⟩,
    ⟨fun h => ?_, ?_⟩⟩ <;>
    simp only [MultiDynamic.goto, MultiDynamic.step, MultiDynamic.roll,
      MultiDynamic.setCurrent]
  · exact fanout_lookup_not_named _ _ _ _ h
  · exact fanout_err _ _ _
  · exact fanout_lookup_not_named _ _ _ _ h
  · exact fanout_err _ _ _
  · exact fanout_lookup_not_named _ _ _ _ h
  · exact fanout_err _ _ _
  · exact fanout_lookup_not_named _ _ _ _ h
  · exact fanout_err _ _ _

/-- Witness for C8: a two-axis composite where only `yaw` is sent to a
target leaves `pitch` untouched. -/
theorem C8_fanout_ops_witness :
    lookupDyn ((MultiDynamic.goto
        { hasFn := true,
          dynamics := [("yaw", Dynamic.make false XQ.negInf XQ.posInf),
            ("pitch", Dynamic.make false XQ.negInf XQ.posInf)] }
        [("yaw", XQ.fin 1)] 1).1).dynamics "pitch"
      = lookupDyn
          [("yaw", Dynamic.make false XQ.negInf XQ.posInf),
            ("pitch", Dynamic.make false XQ.negInf XQ.posInf)] "pitch" := by
  exact (C8_fanout_ops
    { hasFn := true,
      dynamics := [("yaw", Dynamic.make false XQ.negInf XQ.posInf),
        ("pitch", Dynamic.make false XQ.negInf XQ.posInf)] }
    [("yaw", XQ.fin 1)] [] [] [] 1 "pitch").1.1 (by simp)

/-- Every control-surface call preserves the bounds invariant (under the
`setCurrent` restriction) and never changes the bounds themselves. -/
theorem applyOp_inv (d : Dynamic) (op : Op) (hi : Inv d)
    (hok : OkOp d.min d.max op) :
    Inv (applyOp d op) ∧ (applyOp d op).min = d.min ∧
      (applyOp d op).max = d.max := by
  obtain ⟨hmm, hc1, hc2, ht⟩ := hi
  cases op with
  | goto p m =>
      exact ⟨⟨hmm, hc1, hc2, Or.inl ⟨bound_ge _ _ _, bound_le _ hmm⟩⟩, rfl, rfl⟩
  | step v m =>
      by_cases hm : d.mode = Mode.INFINITE <;>
        simp only [applyOp, Dynamic.step, hm, if_pos, if_neg, Dynamic.goto] <;>
        exact ⟨⟨hmm, hc1, hc2, Or.inl ⟨bound_ge _ _ _, bound_le _ hmm⟩⟩,
          by trivial, by trivial⟩
  | roll i m =>
      cases i
      · exact ⟨⟨hmm, hc1, hc2, Or.inr (Or.inl rfl)⟩, rfl, rfl⟩
      · exact ⟨⟨hmm, hc1, hc2, Or.inr (Or.inr rfl)⟩, rfl, rfl⟩
  | stop => exact ⟨⟨hmm, hc1, hc2, ht⟩, rfl, rfl⟩
  | setCurrent c => exact ⟨⟨hmm, hok.1, hok.2, Or.inl ⟨hok.1, hok.2⟩⟩, rfl, rfl⟩
  | update e =>
      obtain ⟨_, _, _, htg, hmn, hmx⟩ := d.update_frame e
      simp only [applyOp]
      refine ⟨⟨?_, ?_, ?_, ?_⟩, hmn, hmx⟩
      · rw [hmn, hmx]; exact hmm
      · rcases d.update_current_cases e with h | ⟨n, _, h⟩
        · rw [hmn, h]; exact hc1
        · rw [hmn, h]; exact bound_ge _ _ _
      · rcases d.update_current_cases e with h | ⟨n, _, h⟩
        · rw [hmx, h]; exact hc2
        · rw [hmx, h]; exact bound_le _ hmm
      · rw [hmn, hmx, htg]; exact ht

/-- Running any restricted sequence of calls preserves the invariant. -/
theorem runOps_inv (ops : List Op) (d : Dynamic) (hi : Inv d)
    (hok : ∀ op ∈ ops, OkOp d.min d.max op) :
    Inv (runOps d ops) := by
  induction ops generalizing d with
  | nil => exact hi
  | cons op rest ih =>
      have h := applyOp_inv d op hi (hok op (List.mem_cons_self op rest))
      refine ih (applyOp d op) h.1 ?_
      rw [h.2.1, h.2.2]
      exact fun o ho => hok o (List.mem_cons_of_mem op ho)

/-- Counterexample to claim C2 as stated: constructing an axis with bounds
`[1, 2]` (a perfectly legal call) already violates `min ≤ current`: the
constructor pins `current = 0` regardless of the bounds, and the empty call
sequence keeps it there. -/
theorem C2_counterexample :
    runOps (Dynamic.make true (XQ.fin 1) (XQ.fin 2)) []
        = Dynamic.make true (XQ.fin 1) (XQ.fin 2) ∧
    XQ.leb (Dynamic.make true (XQ.fin 1) (XQ.fin 2)).min
      (Dynamic.make true (XQ.fin 1) (XQ.fin 2)).current = false := by
  constructor
  · rfl
  · norm_num [Dynamic.make]

/-- Claim C2 as amended: provided the constructor bounds admit the fixed
initial position `0` (`min ≤ 0 ≤ max`) and every `setCurrent` argument lies
within `[min,max]` (the code stores it unclamped), every state reachable by
any sequence of `goto`/`step`/`roll`/`stop`/`setCurrent`/`update` calls with
otherwise arbitrary numeric arguments satisfies `min ≤ current ≤ max`, and
`min ≤ target ≤ max` unless `target` is an infinite rolling sentinel (which
can also persist after Rolling mode is left, e.g. after `stop()`). -/
theorem C2_invariant (hasFn : Bool) (mn mx : XQ) (ops : List Op)
    (h0 : XQ.leb mn (XQ.fin 0) = true) (h1 : XQ.leb (XQ.fin 0) mx = true)
    (hok : ∀ op ∈ ops, OkOp mn mx op) :
    Inv (runOps (Dynamic.make hasFn mn mx) ops) := by
  refine runOps_inv ops _ ⟨XQ.leb_trans h0 h1, h0, h1, Or.inl ⟨h0, h1⟩⟩ ?_
  exact hok

/-- Witness for C2: bounds `[0, 10]`, a roll, a stop, an in-range
`setCurrent` and an update keep the invariant. -/
theorem C2_invariant_witness :
    Inv (runOps (Dynamic.make true (XQ.fin 0) (XQ.fin 10))
      [Op.roll false 1, Op.stop, Op.setCurrent (XQ.fin 3), Op.update 16]) := by
  refine C2_invariant true (XQ.fin 0) (XQ.fin 10)
    [Op.roll false 1, Op.stop, Op.setCurrent (XQ.fin 3), Op.update 16]
    (by norm_num) (by norm_num) ?_
  intro op hop
  fin_cases hop <;> simp [OkOp] <;> norm_num

namespace XQ

theorem maxx_fin_fin (a b : ℚ) : maxx (fin a) (fin b) = fin (Max.max a b) := by
  unfold maxx
  by_cases h : a < b
  · simp [h, max_eq_right (le_of_lt h)]
  · simp [h, max_eq_left (le_of_not_lt h)]

theorem minx_fin_fin (a b : ℚ) : minx (fin a) (fin b) = fin (Min.min a b) := by
  unfold minx
  by_cases h : a < b
  · simp [h, min_eq_left (le_of_lt h)]
  · simp [h, min_eq_right (le_of_not_lt h)]

theorem leb_to_not_ltb {a b : XQ} (h : leb a b = true) : ltb b a = false := by
  cases a <;> cases b <;> simp_all [ltb, leb] <;> linarith

end XQ

/-- Clamping a value that sits above the in-bounds point `t` lands between
`t` and the value. -/
theorem bound_fin_above {mn mx : XQ} {t y : ℚ}
    (hmn : XQ.leb mn (XQ.fin t) = true) (hmx : XQ.leb (XQ.fin t) mx = true)
    (hy : t ≤ y) :
    ∃ w, bound (XQ.fin y) mn mx = XQ.fin w ∧ t ≤ w ∧ w ≤ y := by
  unfold bound XQ.minx
  by_cases h1 : XQ.ltb mx (XQ.fin y) = true
  · cases mx with
    | negInf => simp [XQ.leb] at hmx
    | posInf => simp [XQ.ltb] at h1
    | fin mxq =>
        simp only [h1, if_true]
        simp only [XQ.ltb_fin_fin, decide_eq_true_eq] at h1
        simp only [XQ.leb_fin_fin, decide_eq_true_eq] at hmx
        unfold XQ.maxx
        by_cases h2 : XQ.ltb mn (XQ.fin mxq) = true
        · exact ⟨mxq, by simp [h2], hmx, le_of_lt h1⟩
        · cases mn with
          | negInf => simp [XQ.ltb] at h2
          | posInf => simp [XQ.leb] at hmn
          | fin mnq =>
              simp only [XQ.ltb_fin_fin, decide_eq_true_eq, not_lt] at h2
              simp only [XQ.leb_fin_fin, decide_eq_true_eq] at hmn
              refine ⟨mnq, by simp [XQ.ltb, not_lt.2 h2], ?_, ?_⟩
              · linarith
              · linarith
  · simp only [h1, Bool.false_eq_true, if_false]
    unfold XQ.maxx
    by_cases h2 : XQ.ltb mn (XQ.fin y) = true
    · exact ⟨y, by simp [h2], hy, le_refl y⟩
    · cases mn with
      | negInf => simp [XQ.ltb] at h2
      | posInf => simp [XQ.leb] at hmn
      | fin mnq =>
          simp only [XQ.ltb_fin_fin, decide_eq_true_eq, not_lt] at h2
          simp only [XQ.leb_fin_fin, decide_eq_true_eq] at hmn
          refine ⟨mnq, by simp [XQ.ltb, not_lt.2 h2], ?_, ?_⟩
          · linarith
          · linarith

/-- Clamping a value that sits below the in-bounds point `t` lands between
the value and `t`. -/
theorem bound_fin_below {mn mx : XQ} {t y : ℚ}
    (hmn : XQ.leb mn (XQ.fin t) = true) (hmx : XQ.leb (XQ.fin t) mx = true)
    (hy : y ≤ t) :
    ∃ w, bound (XQ.fin y) mn mx = XQ.fin w ∧ y ≤ w ∧ w ≤ t := by
  have hymx : XQ.leb (XQ.fin y) mx = true :=
    XQ.leb_trans (by simp [hy]) hmx
  have h1 : XQ.ltb mx (XQ.fin y) = false := XQ.leb_to_not_ltb hymx
  unfold bound XQ.minx
  rw [h1]
  simp only [Bool.false_eq_true, if_false]
  unfold XQ.maxx
  by_cases h2 : XQ.ltb mn (XQ.fin y) = true
  · exact ⟨y, by simp [h2], le_refl y, hy⟩
  · cases mn with
    | negInf => simp [XQ.ltb] at h2
    | posInf => simp [XQ.leb] at hmn
    | fin mnq =>
        simp only [XQ.ltb_fin_fin, decide_eq_true_eq, not_lt] at h2
        simp only [XQ.leb_fin_fin, decide_eq_true_eq] at hmn
        exact ⟨mnq, by simp [XQ.ltb, not_lt.2 h2], h2, hmn⟩

namespace Dynamic

/-- When no movement is computed the position is unchanged. -/
theorem update_current_of_none (d : Dynamic) (e : ℚ)
    (h : d.nextPos e = none) : (d.update e).1.current = d.current := by
  unfold update
  rw [h]

/-- When a movement is computed the new position is the clamped value. -/
theorem update_current_of_next (d : Dynamic) (e : ℚ) (n : XQ)
    (h : d.nextPos e = some n) :
    (d.update e).1.current = bound n d.min d.max := by
  unfold update
  rw [h]
  by_cases h2 : bound n d.min d.max ≠ d.current
  · simp [h2]
  · push_neg at h2
    simp [h2]

/-- The ramped speed stays nonnegative for nonnegative elapsed time and a
nonnegative speed configuration. -/
theorem newSpeed_nonneg (d : Dynamic) (e : ℚ) (hv : 0 ≤ d.currentSpeed)
    (hsm : 0 ≤ d.speed * d.speedMult) (he : 0 ≤ e) : 0 ≤ d.newSpeed e := by
  have hts : 0 ≤ d.targetSpeed := by
    unfold targetSpeed
    split
    · exact le_refl 0
    · exact hsm
  have hX : 0 ≤ e / 1000 * d.speed * d.speedMult * 2 := by
    have h1 : 0 ≤ e / 1000 := by positivity
    nlinarith
  unfold newSpeed
  split
  · exact le_min hts (by linarith)
  · split
    · exact le_trans hts (le_max_left _ _)
    · exact hv

/-- In a step whose (possibly updated) mode is `Stopped`, the speed ramps
down by the fixed deceleration, clamped at zero. -/
theorem newSpeed_stop (d : Dynamic) (e s : ℚ) (hsp : d.speed = s)
    (hm : d.speedMult = 1) (hv : 0 ≤ d.currentSpeed) (hs : 0 < s) (he : 0 < e)
    (hmode : d.stepMode = Mode.STOP) :
    d.newSpeed e = Max.max 0 (d.currentSpeed - e / 1000 * s * 2) := by
  have hts : d.targetSpeed = 0 := by
    unfold targetSpeed
    rw [if_pos hmode]
  have hd : 0 < e / 1000 * s * 2 := by positivity
  unfold newSpeed
  rw [hts, hsp, hm]
  rcases lt_trichotomy d.currentSpeed 0 with h | h | h
  · linarith
  · rw [if_neg (by rw [h]; exact lt_irrefl 0),
      if_neg (by rw [h]; exact lt_irrefl 0), h]
    rw [max_eq_left (by linarith)]
  · rw [if_neg (by linarith), if_pos h]
    ring_nf

/-- In a step whose mode stays `Seeking`, the ramped speed is at least
`min maxSpeed (ramp step)`, hence strictly positive. -/
theorem newSpeed_pos_lb (d : Dynamic) (e s : ℚ) (hsp : d.speed = s)
    (hm : d.speedMult = 1) (hv : 0 ≤ d.currentSpeed) (hs : 0 < s) (he : 0 < e)
    (hmode : d.stepMode ≠ Mode.STOP) :
    Min.min s (e / 1000 * s * 2) ≤ d.newSpeed e := by
  have hts : d.targetSpeed = s := by
    unfold targetSpeed
    rw [if_neg hmode, hsp, hm, mul_one]
  have hd : 0 < e / 1000 * s * 2 := by positivity
  unfold newSpeed
  rw [hts, hsp, hm]
  split
  · refine le_min (min_le_left _ _) ?_
    have h2 := min_le_right s (e / 1000 * s * 2)
    have h3 : e / 1000 * s * 1 * 2 = e / 1000 * s * 2 := by ring
    rw [h3]
    linarith
  · split
    · exact le_trans (min_le_left _ _) (le_max_left _ _)
    · have h1 : ¬ d.currentSpeed < s := by assumption
      exact le_trans (min_le_left _ _) (le_of_not_lt h1)

end Dynamic

/-- Full characterization of one `update` position step toward a finite
in-bounds target: the position stays on its side of the target, moves only
toward it, and closes the gap by the travelled distance (up to clamping). -/
theorem Dynamic.step_analysis (d : Dynamic) (e s t c : ℚ)
    (hsp : d.speed = s) (hm : d.speedMult = 1) (hs : 0 < s) (he : 0 < e)
    (hv : 0 ≤ d.currentSpeed) (ht : d.target = XQ.fin t)
    (hc : d.current = XQ.fin c)
    (hmn : XQ.leb d.min (XQ.fin t) = true)
    (hmx : XQ.leb (XQ.fin t) d.max = true) :
    ∃ c2 : ℚ, (d.update e).1.current = XQ.fin c2 ∧
      (c ≤ t → c ≤ c2 ∧ c2 ≤ t ∧
        t - c2 ≤ Max.max 0 (t - c - d.newSpeed e * e / 1000)) ∧
      (t ≤ c → c2 ≤ c ∧ t ≤ c2 ∧
        c2 - t ≤ Max.max 0 (c - t - d.newSpeed e * e / 1000)) := by
  have hns0 : 0 ≤ d.newSpeed e :=
    d.newSpeed_nonneg e hv (by rw [hsp, hm, mul_one]; exact le_of_lt hs)
      (le_of_lt he)
  have hnsdt : 0 ≤ d.newSpeed e * e / 1000 :=
    div_nonneg (mul_nonneg hns0 (le_of_lt he)) (by norm_num)
  by_cases hz : d.newSpeed e = 0
  · have hnp : d.nextPos e = none := by
      unfold nextPos
      rw [hz]
      simp
    have hcur := d.update_current_of_none e hnp
    have hgap : ∀ g' : ℚ, g' - d.newSpeed e * e / 1000 = g' := by
      intro g'
      rw [hz]
      ring
    refine ⟨c, by rw [hcur, hc], ?_, ?_⟩
    · intro hct
      refine ⟨le_refl c, hct, ?_⟩
      rw [sub_sub, show c + d.newSpeed e * e / 1000 = c by rw [hz]; ring]
      exact le_max_right _ _
    · intro htc
      refine ⟨le_refl c, htc, ?_⟩
      rw [sub_sub, show t + d.newSpeed e * e / 1000 = t by rw [hz]; ring]
      exact le_max_right _ _
  · rcases lt_trichotomy t c with htc | htc | htc
    · have hcond : XQ.ltb d.target d.current = true ∧ d.newSpeed e ≠ 0 := by
        rw [ht, hc]
        exact ⟨by simp [htc], hz⟩
      have hnp : d.nextPos e
          = some (XQ.fin (Max.max t (c - d.newSpeed e * e / 1000))) := by
        unfold nextPos
        rw [if_pos hcond, ht, hc]
        rw [XQ.subQ_fin, XQ.maxx_fin_fin]
      have hy : t ≤ Max.max t (c - d.newSpeed e * e / 1000) := le_max_left _ _
      obtain ⟨w, hw, hw1, hw2⟩ := bound_fin_above hmn hmx hy
      have hcur := d.update_current_of_next e _ hnp
      rw [hw] at hcur
      have hyc : Max.max t (c - d.newSpeed e * e / 1000) ≤ c :=
        max_le (le_of_lt htc) (by linarith)
      refine ⟨w, hcur, ?_, ?_⟩
      · intro hct
        exact absurd hct (not_le.2 htc)
      · intro _
        refine ⟨le_trans hw2 hyc, hw1, ?_⟩
        rcases le_total (c - d.newSpeed e * e / 1000) t with hcase | hcase
        · have : Max.max t (c - d.newSpeed e * e / 1000) = t := max_eq_left hcase
          rw [this] at hw2
          have : w - t ≤ 0 := by linarith
          exact le_trans this (le_max_left _ _)
        · have hmax : Max.max t (c - d.newSpeed e * e / 1000)
              = c - d.newSpeed e * e / 1000 := max_eq_right hcase
          rw [hmax] at hw2
          refine le_trans (by linarith) (le_max_right 0
            (c - t - d.newSpeed e * e / 1000))
    · have hnp : d.nextPos e = none := by
        unfold nextPos
        rw [ht, hc, htc]
        simp
      have hcur := d.update_current_of_none e hnp
      refine ⟨c, by rw [hcur, hc], ?_, ?_⟩
      · intro hct
        refine ⟨le_refl c, hct, le_trans (by linarith [htc]) (le_max_left _ _)⟩
      · intro htc2
        refine ⟨le_refl c, htc2, le_trans (by linarith [htc]) (le_max_left _ _)⟩
    · have hcond1 : ¬ (XQ.ltb d.target d.current = true ∧ d.newSpeed e ≠ 0) := by
        rw [ht, hc]
        simp [not_lt.2 (le_of_lt htc)]
      have hcond2 : XQ.ltb d.current d.target = true ∧ d.newSpeed e ≠ 0 := by
        rw [ht, hc]
        exact ⟨by simp [htc], hz⟩
      have hnp : d.nextPos e
          = some (XQ.fin (Min.min t (c + d.newSpeed e * e / 1000))) := by
        unfold nextPos
        rw [if_neg hcond1, if_pos hcond2, ht, hc]
        rw [XQ.addQ_fin, XQ.minx_fin_fin]
      have hy : Min.min t (c + d.newSpeed e * e / 1000) ≤ t := min_le_left _ _
      obtain ⟨w, hw, hw1, hw2⟩ := bound_fin_below hmn hmx hy
      have hcur := d.update_current_of_next e _ hnp
      rw [hw] at hcur
      have hcy : c ≤ Min.min t (c + d.newSpeed e * e / 1000) :=
        le_min (le_of_lt htc) (by linarith)
      refine ⟨w, hcur, ?_, ?_⟩
      · intro _
        refine ⟨le_trans hcy hw1, hw2, ?_⟩
        rcases le_total t (c + d.newSpeed e * e / 1000) with hcase | hcase
        · have : Min.min t (c + d.newSpeed e * e / 1000) = t := min_eq_left hcase
          rw [this] at hw1
          have : t - w ≤ 0 := by linarith
          exact le_trans this (le_max_left _ _)
        · have hmin : Min.min t (c + d.newSpeed e * e / 1000)
              = c + d.newSpeed e * e / 1000 := min_eq_right hcase
          rw [hmin] at hw1
          refine le_trans (by linarith) (le_max_right 0
            (t - c - d.newSpeed e * e / 1000))
      · intro htc2
        exact absurd htc2 (not_le.2 htc)

/-- `update` preserves the convergence configuration. -/
theorem sane_step {s t : ℚ} (d : Dynamic) (e : ℚ) (hs : 0 < s) (he : 0 < e)
    (hsane : Sane s t d) : Sane s t ((d.update e).1) := by
  obtain ⟨hsp, hm, ht, hv, hmn, hmx, c, hc⟩ := hsane
  obtain ⟨hf, h1, h2, h3, h4, h5⟩ := d.update_frame e
  obtain ⟨c2, hc2, _, _⟩ :=
    d.step_analysis e s t c hsp hm hs he hv ht hc hmn hmx
  refine ⟨by rw [h1, hsp], by rw [h2, hm], by rw [h3, ht], ?_,
    by rw [h4]; exact hmn, by rw [h5]; exact hmx, c2, hc2⟩
  rw [d.update_currentSpeed e]
  exact d.newSpeed_nonneg e hv
    (by rw [hsp, hm, mul_one]; exact le_of_lt hs) (le_of_lt he)

/-- `stepMode` either keeps the mode or switches to `Stopped`. -/
theorem Dynamic.stepMode_or (d : Dynamic) :
    d.stepMode = d.mode ∨ d.stepMode = Mode.STOP := by
  unfold Dynamic.stepMode
  split
  · right; rfl
  · left; rfl

/-- A stopped axis stays stopped through the deceleration-window check. -/
theorem Dynamic.stepMode_of_stop (d : Dynamic) (h : d.mode = Mode.STOP) :
    d.stepMode = Mode.STOP := by
  unfold Dynamic.stepMode
  split
  · rfl
  · exact h

/-- A stopped axis with zero speed is a fixpoint of `update`: the call
changes nothing and returns `false` with no callback. -/
theorem Dynamic.update_fixpoint (d : Dynamic) (e : ℚ)
    (h1 : d.mode = Mode.STOP) (h2 : d.currentSpeed = 0) :
    d.update e = (d, false, []) := by
  have hsm : d.stepMode = Mode.STOP := d.stepMode_of_stop h1
  have hts : d.targetSpeed = 0 := by
    unfold Dynamic.targetSpeed
    rw [if_pos hsm]
  have hns : d.newSpeed e = d.currentSpeed := by
    unfold Dynamic.newSpeed
    rw [hts, h2]
    simp
  have hnp : d.nextPos e = none := by
    unfold Dynamic.nextPos
    rw [hns, h2]
    simp
  rw [Dynamic.update, hnp, hsm, ← h1, hns]

/-- In `Stopped` mode the speed ramps down to exactly 0 within finitely many
steps (a bound on the step count is `currentSpeed` over the per-step
deceleration), and everything else stays stable. -/
theorem stop_phase (s t e : ℚ) (hs : 0 < s) (he : 0 < e) :
    ∀ (n : ℕ) (d : Dynamic), Sane s t d → d.mode = Mode.STOP →
      d.currentSpeed ≤ n * (e / 1000 * s * 2) →
      (iterUpd e n d).mode = Mode.STOP ∧
        (iterUpd e n d).currentSpeed = 0 ∧ Sane s t (iterUpd e n d) := by
  intro n
  induction n with
  | zero =>
      intro d hsane hmode hv
      have hv0 : 0 ≤ d.currentSpeed := hsane.2.2.2.1
      have : d.currentSpeed = 0 := le_antisymm (by simpa using hv) hv0
      exact ⟨hmode, this, hsane⟩
  | succ k ih =>
      intro d hsane hmode hv
      obtain ⟨hsp, hm, ht, hv0, hmn, hmx, c, hc⟩ := hsane
      have hsm : d.stepMode = Mode.STOP := d.stepMode_of_stop hmode
      have hns := d.newSpeed_stop e s hsp hm hv0 hs he hsm
      have hmode1 : ((d.update e).1).mode = Mode.STOP := by
        rw [d.update_mode e]
        exact hsm
      have hv1 : ((d.update e).1).currentSpeed
          = Max.max 0 (d.currentSpeed - e / 1000 * s * 2) := by
        rw [d.update_currentSpeed e]
        exact hns
      have hsane1 : Sane s t ((d.update e).1) :=
        sane_step d e hs he ⟨hsp, hm, ht, hv0, hmn, hmx, c, hc⟩
      have hd : 0 < e / 1000 * s * 2 := by positivity
      have hv1b : ((d.update e).1).currentSpeed ≤ k * (e / 1000 * s * 2) := by
        rw [hv1]
        apply max_le
        · positivity
        · push_cast at hv ⊢
          linarith
      have := ih ((d.update e).1) hsane1 hmode1 hv1b
      simpa [iterUpd] using this

/-- The braking-distance test fires whenever the axis sits exactly on a
finite target with non-zero residual speed. -/
theorem Dynamic.decelHit_at_target (d : Dynamic) (s t : ℚ) (hsp : d.speed = s)
    (hm : d.speedMult = 1) (hs : 0 < s) (ht : d.target = XQ.fin t)
    (hc : d.current = XQ.fin t) (hv : d.currentSpeed ≠ 0) :
    d.decelHit = true := by
  simp only [Dynamic.decelHit, ht, hc]
  have hden : ¬ d.speed * d.speedMult * 4 = 0 := by
    rw [hsp, hm]
    have : (0 : ℚ) < s * 1 * 4 := by linarith
    exact ne_of_gt this
  rw [if_neg hden]
  have hpos : 0 < d.currentSpeed * d.currentSpeed /
      (d.speed * d.speedMult * 4) := by
    apply div_pos (mul_self_pos.2 hv)
    rw [hsp, hm]
    linarith
  simp only [sub_self, abs_zero, decide_eq_true_eq]
  exact hpos

/-- Iteration splits into runs. -/
theorem iterUpd_add (e : ℚ) (b a : ℕ) (d : Dynamic) :
    iterUpd e (b + a) d = iterUpd e b (iterUpd e a d) := by
  induction a generalizing d with
  | zero => rfl
  | succ k ihk => exact ihk ((d.update e).1)

/-- In Seeking mode with a finite in-bounds target the axis reaches
`Stopped` mode within a number of steps bounded by the gap over the
guaranteed per-step travel, plus two settling steps. -/
theorem pos_phase (s t e : ℚ) (hs : 0 < s) (he : 0 < e) :
    ∀ (n : ℕ) (d : Dynamic) (c : ℚ), Sane s t d → d.mode = Mode.POSITION →
      d.current = XQ.fin c →
      |t - c| ≤ n * (Min.min s (e / 1000 * s * 2) * (e / 1000)) →
      ∃ k, k ≤ n + 2 ∧ (iterUpd e k d).mode = Mode.STOP ∧
        Sane s t (iterUpd e k d) := by
  have hd : 0 < e / 1000 * s * 2 := by positivity
  have hdt : 0 < e / 1000 := by positivity
  have heta : 0 < Min.min s (e / 1000 * s * 2) * (e / 1000) :=
    mul_pos (lt_min hs hd) hdt
  intro n
  induction n with
  | zero =>
      intro d c hsane hmode hc hgap
      have hct : c = t := by
        have h0 : |t - c| ≤ 0 := by simpa using hgap
        have h1 : |t - c| = 0 := le_antisymm h0 (abs_nonneg (t - c))
        have h2 := abs_eq_zero.1 h1
        linarith
      rw [hct] at hc
      obtain ⟨hsp, hm, ht, hv, hmn, hmx, c0, hc0⟩ := hsane
      by_cases hhit : d.decelHit = true
      · refine ⟨1, by omega, ?_, ?_⟩
        · show ((d.update e).1).mode = Mode.STOP
          rw [d.update_mode e]
          unfold Dynamic.stepMode
          rw [if_pos ⟨hmode, hhit⟩]
        · exact sane_step d e hs he ⟨hsp, hm, ht, hv, hmn, hmx, c0, hc0⟩
      · have hsm : d.stepMode = d.mode := by
          unfold Dynamic.stepMode
          rw [if_neg]
          intro hcon
          exact hhit hcon.2
        have hsm2 : d.stepMode ≠ Mode.STOP := by
          rw [hsm, hmode]
          intro hcon
          exact Mode.noConfusion hcon
        have hns := d.newSpeed_pos_lb e s hsp hm hv hs he hsm2
        have hnspos : 0 < d.newSpeed e := lt_of_lt_of_le (lt_min hs hd) hns
        obtain ⟨c2, hc2, hbelow, habove⟩ :=
          d.step_analysis e s t t hsp hm hs he hv ht hc hmn hmx
        have hc2t : c2 = t :=
          le_antisymm ((hbelow (le_refl t)).2.1) ((habove (le_refl t)).2.1)
        rw [hc2t] at hc2
        have hsane1 : Sane s t ((d.update e).1) :=
          sane_step d e hs he ⟨hsp, hm, ht, hv, hmn, hmx, c0, hc0⟩
        obtain ⟨hsp1, hm1, ht1, hv1, hmn1, hmx1, c1, hc1⟩ := hsane1
        have hmode1 : ((d.update e).1).mode = Mode.POSITION := by
          rw [d.update_mode e, hsm, hmode]
        have hv1ne : ((d.update e).1).currentSpeed ≠ 0 := by
          rw [d.update_currentSpeed e]
          exact ne_of_gt hnspos
        have hhit1 : ((d.update e).1).decelHit = true :=
          ((d.update e).1).decelHit_at_target s t hsp1 hm1 hs ht1 hc2 hv1ne
        refine ⟨2, by omega, ?_, ?_⟩
        · show ((((d.update e).1).update e).1).mode = Mode.STOP
          rw [((d.update e).1).update_mode e]
          unfold Dynamic.stepMode
          rw [if_pos ⟨hmode1, hhit1⟩]
        · exact sane_step ((d.update e).1) e hs he
            ⟨hsp1, hm1, ht1, hv1, hmn1, hmx1, c1, hc1⟩
  | succ k ih =>
      intro d c hsane hmode hc hgap
      obtain ⟨hsp, hm, ht, hv, hmn, hmx, c0, hc0⟩ := hsane
      by_cases hhit : d.decelHit = true
      · refine ⟨1, by omega, ?_, ?_⟩
        · show ((d.update e).1).mode = Mode.STOP
          rw [d.update_mode e]
          unfold Dynamic.stepMode
          rw [if_pos ⟨hmode, hhit⟩]
        · exact sane_step d e hs he ⟨hsp, hm, ht, hv, hmn, hmx, c0, hc0⟩
      · have hsm : d.stepMode = d.mode := by
          unfold Dynamic.stepMode
          rw [if_neg]
          intro hcon
          exact hhit hcon.2
        have hsm2 : d.stepMode ≠ Mode.STOP := by
          rw [hsm, hmode]
          intro hcon
          exact Mode.noConfusion hcon
        have hns := d.newSpeed_pos_lb e s hsp hm hv hs he hsm2
        have hnsdt : Min.min s (e / 1000 * s * 2) * (e / 1000)
            ≤ d.newSpeed e * e / 1000 := by
          have h1 : Min.min s (e / 1000 * s * 2) * (e / 1000)
              ≤ d.newSpeed e * (e / 1000) :=
            mul_le_mul_of_nonneg_right hns (le_of_lt hdt)
          calc Min.min s (e / 1000 * s * 2) * (e / 1000)
              ≤ d.newSpeed e * (e / 1000) := h1
            _ = d.newSpeed e * e / 1000 := by ring
        obtain ⟨c2, hc2, hbelow, habove⟩ :=
          d.step_analysis e s t c hsp hm hs he hv ht hc hmn hmx
        have hsane1 : Sane s t ((d.update e).1) :=
          sane_step d e hs he ⟨hsp, hm, ht, hv, hmn, hmx, c0, hc0⟩
        have hmode1 : ((d.update e).1).mode = Mode.POSITION := by
          rw [d.update_mode e, hsm, hmode]
        have hgap1 : |t - c2|
            ≤ k * (Min.min s (e / 1000 * s * 2) * (e / 1000)) := by
          rcases le_total c t with hct | htc
          · obtain ⟨h1, h2, h3⟩ := hbelow hct
            rw [abs_of_nonneg (by linarith)]
            rw [abs_of_nonneg (by linarith)] at hgap
            push_cast at hgap ⊢
            have h4 : t - c2 ≤ Max.max 0 (t - c - d.newSpeed e * e / 1000) := h3
            apply le_trans h4
            apply max_le
            · positivity
            · linarith
          · obtain ⟨h1, h2, h3⟩ := habove htc
            rw [abs_of_nonpos (by linarith), neg_sub]
            rw [abs_of_nonpos (by linarith), neg_sub] at hgap
            push_cast at hgap ⊢
            apply le_trans h3
            apply max_le
            · positivity
            · linarith
        obtain ⟨k2, hk2, hk2mode, hk2sane⟩ :=
          ih ((d.update e).1) c2 hsane1 hmode1 hc2 hgap1
        refine ⟨k2 + 1, by omega, ?_, ?_⟩
        · show (iterUpd e (k2 + 1) d).mode = Mode.STOP
          have : iterUpd e (k2 + 1) d = iterUpd e k2 ((d.update e).1) := rfl
          rw [this]
          exact hk2mode
        · have : iterUpd e (k2 + 1) d = iterUpd e k2 ((d.update e).1) := rfl
          rw [this]
          exact hk2sane

/-- Along the whole iteration the axis stays on its starting side of the
target (no overshoot), and the configuration stays sane. -/
theorem iter_sane_side (s t e : ℚ) (hs : 0 < s) (he : 0 < e) :
    ∀ (k : ℕ) (d : Dynamic), Sane s t d →
      Sane s t (iterUpd e k d) ∧
      (XQ.leb d.current (XQ.fin t) = true →
        XQ.leb (iterUpd e k d).current (XQ.fin t) = true) ∧
      (XQ.leb (XQ.fin t) d.current = true →
        XQ.leb (XQ.fin t) (iterUpd e k d).current = true) := by
  intro k
  induction k with
  | zero => exact fun d h => ⟨h, id, id⟩
  | succ n ih =>
      intro d hsane
      obtain ⟨hsp, hm, ht, hv, hmn, hmx, c, hc⟩ := hsane
      obtain ⟨c2, hc2, hbelow, habove⟩ :=
        d.step_analysis e s t c hsp hm hs he hv ht hc hmn hmx
      have hsane1 : Sane s t ((d.update e).1) :=
        sane_step d e hs he ⟨hsp, hm, ht, hv, hmn, hmx, c, hc⟩
      have hrec := ih ((d.update e).1) hsane1
      have hstep : iterUpd e (n + 1) d = iterUpd e n ((d.update e).1) := rfl
  /- goal components transported through one step -/
      refine ⟨by rw [hstep]; exact hrec.1, ?_, ?_⟩
      · intro hcur
        rw [hc] at hcur
        have hct : c ≤ t := by simpa using hcur
        have h1 : XQ.leb ((d.update e).1).current (XQ.fin t) = true := by
          rw [hc2]
          simp [(hbelow hct).2.1]
        rw [hstep]
        exact hrec.2.1 h1
      · intro hcur
        rw [hc] at hcur
        have hct : t ≤ c := by simpa using hcur
        have h1 : XQ.leb (XQ.fin t) ((d.update e).1).current = true := by
          rw [hc2]
          simp [(habove hct).2.1]
        rw [hstep]
        exact hrec.2.2 h1

/-- Claim C1 as amended: from any Seeking state with positive maxSpeed,
multiplier 1, nonnegative speed and a finite in-bounds target, repeated
`update` calls with a constant positive elapsed time eventually reach a
fixpoint: mode `Stopped`, `currentSpeed = 0`, and `update` leaves the state
unchanged returning `false`; moreover the axis never overshoots: it stays on
its starting side of the target for the whole run.  (Exact arrival — or
arrival within an a-priori small epsilon — is not guaranteed: the axis can
come to rest a nonzero distance short of the target, see the
counterexample.) -/
theorem C1_convergence (d : Dynamic) (s t c e : ℚ)
    (hmode : d.mode = Mode.POSITION) (hs : 0 < s) (hsp : d.speed = s)
    (hm : d.speedMult = 1) (hv : 0 ≤ d.currentSpeed)
    (ht : d.target = XQ.fin t) (hc : d.current = XQ.fin c)
    (hmn : XQ.leb d.min (XQ.fin t) = true)
    (hmx : XQ.leb (XQ.fin t) d.max = true) (he : 0 < e) :
    (∃ n, (iterUpd e n d).mode = Mode.STOP ∧
      (iterUpd e n d).currentSpeed = 0 ∧
      (iterUpd e n d).update e = (iterUpd e n d, false, [])) ∧
    (∀ k, (XQ.leb d.current (XQ.fin t) = true →
        XQ.leb (iterUpd e k d).current (XQ.fin t) = true) ∧
      (XQ.leb (XQ.fin t) d.current = true →
        XQ.leb (XQ.fin t) (iterUpd e k d).current = true)) := by
  have hsane : Sane s t d := ⟨hsp, hm, ht, hv, hmn, hmx, c, hc⟩
  constructor
  · have hd : 0 < e / 1000 * s * 2 := by positivity
    have hdt : 0 < e / 1000 := by positivity
    have heta : 0 < Min.min s (e / 1000 * s * 2) * (e / 1000) :=
      mul_pos (lt_min hs hd) hdt
    obtain ⟨n1, hn1⟩ := exists_nat_ge
      (|t - c| / (Min.min s (e / 1000 * s * 2) * (e / 1000)))
    have hn1b : |t - c| ≤ n1 * (Min.min s (e / 1000 * s * 2) * (e / 1000)) := by
      rw [div_le_iff heta] at hn1
      linarith
    obtain ⟨k, _, hkmode, hksane⟩ :=
      pos_phase s t e hs he n1 d c hsane hmode hc hn1b
    obtain ⟨n2, hn2⟩ := exists_nat_ge
      ((iterUpd e k d).currentSpeed / (e / 1000 * s * 2))
    have hn2b : (iterUpd e k d).currentSpeed ≤ n2 * (e / 1000 * s * 2) := by
      rw [div_le_iff hd] at hn2
      linarith
    obtain ⟨hfm, hfv, _⟩ :=
      stop_phase s t e hs he n2 (iterUpd e k d) hksane hkmode hn2b
    refine ⟨n2 + k, ?_, ?_, ?_⟩
    · rw [iterUpd_add]
      exact hfm
    · rw [iterUpd_add]
      exact hfv
    · rw [iterUpd_add]
      exact (iterUpd e n2 (iterUpd e k d)).update_fixpoint e hfm hfv
  · intro k
    exact (iter_sane_side s t e hs he k d hsane).2

/-- Witness for C1 at a concrete axis: speed 1, bounds `[0, 10]`, target 5
set by `goto`, updates of 16 ms. -/
theorem C1_convergence_witness :
    (∃ n, (iterUpd 16 n (({ Dynamic.make false (XQ.fin 0) (XQ.fin 10) with
        speed := 1 }).goto (XQ.fin 5) 1)).mode = Mode.STOP ∧
      (iterUpd 16 n (({ Dynamic.make false (XQ.fin 0) (XQ.fin 10) with
        speed := 1 }).goto (XQ.fin 5) 1)).currentSpeed = 0 ∧
      (iterUpd 16 n (({ Dynamic.make false (XQ.fin 0) (XQ.fin 10) with
          speed := 1 }).goto (XQ.fin 5) 1)).update 16
        = (iterUpd 16 n (({ Dynamic.make false (XQ.fin 0) (XQ.fin 10) with
            speed := 1 }).goto (XQ.fin 5) 1), false, [])) ∧
    (∀ k, (XQ.leb (({ Dynamic.make false (XQ.fin 0) (XQ.fin 10) with
          speed := 1 }).goto (XQ.fin 5) 1).current (XQ.fin 5) = true →
        XQ.leb (iterUpd 16 k (({ Dynamic.make false (XQ.fin 0)
            (XQ.fin 10) with speed := 1 }).goto (XQ.fin 5) 1)).current
          (XQ.fin 5) = true) ∧
      (XQ.leb (XQ.fin 5) (({ Dynamic.make false (XQ.fin 0) (XQ.fin 10) with
          speed := 1 }).goto (XQ.fin 5) 1).current = true →
        XQ.leb (XQ.fin 5) (iterUpd 16 k (({ Dynamic.make false (XQ.fin 0)
            (XQ.fin 10) with speed := 1 }).goto
          (XQ.fin 5) 1)).current = true)) := by
  refine C1_convergence _ 1 5 0 16 rfl (by norm_num) rfl rfl
    ?_ ?_ rfl ?_ ?_ (by norm_num)
  · norm_num [Dynamic.make, Dynamic.goto]
  · norm_num [Dynamic.make, Dynamic.goto, bound, XQ.minx, XQ.maxx, XQ.ltb]
  · norm_num [Dynamic.make, Dynamic.goto]
  · norm_num [Dynamic.make, Dynamic.goto]

/-- Counterexample to claim C1 as stated: with maxSpeed 100,
speedMultiplier 1, target 120 within `[0, 1000]` set by `goto`, and constant
`elapsedMs = 1000`, the run reaches after two updates a state that is an
exact fixpoint of `update` (every further update returns `false` changing
nothing), in `Stopped` mode with `currentSpeed 0` — but with `current = 100`,
a distance of `20` from the target, which no epsilon deserves to be called
small: `current` never gets equal (or close) to `target`. -/
theorem C1_counterexample :
    stallD0.update 1000 = (stallD1, true, []) ∧
    stallD1.update 1000 = (stallD2, false, []) ∧
    stallD2.update 1000 = (stallD2, false, []) ∧
    stallD2.mode = Mode.STOP ∧ stallD2.currentSpeed = 0 ∧
    stallD2.current = XQ.fin 100 ∧ stallD2.target = XQ.fin 120 := by
  refine ⟨?_, ?_, ?_, rfl, rfl, rfl, rfl⟩ <;>
    norm_num [stallD0, stallD1, stallD2, Dynamic.make, Dynamic.goto,
      Dynamic.update, Dynamic.nextPos, Dynamic.newSpeed, Dynamic.targetSpeed,
      Dynamic.stepMode, Dynamic.decelHit, bound, XQ.minx, XQ.maxx, XQ.ltb,
      XQ.addQ, XQ.subQ]

end PSV
